import Mathlib

/-!
# Verification of the wizzit peer-to-peer file transfer core

Shallow embedding of the chunked-transfer protocol, the receiver assembly
state machine, the sender progress/handler state machines, the security
filename classifier and the PIN verification flow, translated from
`src/lib/webrtc.ts` (two revisions are present in the repository; where they
differ the theorems name which revision they follow), `src/lib/security.ts`
and the share/download page.

Conventions: file contents are `List Nat` (byte lists), progress percentages
are `ℚ` (JS numbers; the values occurring here are exact in both), and
`Math.ceil(size / chunkSize)` on natural inputs is the natural ceiling
division `(size + C - 1) / C`.
-/

namespace Wizzit

/-- File contents as a list of bytes. -/
abbrev Bytes := List Nat

/-- Structure `FileMetadata` from `types.ts`: the metadata message the sender sends
first (the optional `checksum` field is never set by the sender and is
omitted). -/
structure FileMetadata where
  name : String
  size : Nat
  type : String
  lastModified : Nat
  chunks : Nat
deriving Repr, DecidableEq

/-- Ceiling division, `Math.ceil(size / chunkSize)` on natural numbers. -/
def chunkCount (size C : Nat) : Nat := (size + C - 1) / C

/-- The metadata object built in `startFileSending`:
`chunks: Math.ceil(transfer.file.size / this.chunkSize)`. -/
def senderMetadata (name ftype : String) (lastModified : Nat)
    (bytes : Bytes) (C : Nat) : FileMetadata :=
  { name := name, size := bytes.length, type := ftype,
    lastModified := lastModified, chunks := chunkCount bytes.length C }

/-- The chunking loop of `startFileSending`: starting at `offset`, repeatedly
take `file.slice(offset, offset + chunkSize)` and advance `offset` by the
slice's length, while `offset < file.size`. -/
def sendLoop (C : Nat) (bytes : Bytes) (offset : Nat) : List Bytes :=
  if h : offset < bytes.length ∧ 0 < C then
    let chunk := (bytes.drop offset).take C
    have hlen : chunk.length = min C (bytes.length - offset) := by
      simp [chunk, List.length_take, List.length_drop]
    have : bytes.length - (offset + chunk.length) < bytes.length - offset := by
      have h1 : 0 < chunk.length := by
        rw [hlen]; exact Nat.lt_min.mpr ⟨h.2, Nat.sub_pos_of_lt h.1⟩
      omega
    chunk :: sendLoop C bytes (offset + chunk.length)
  else []
termination_by bytes.length - offset

/-- The list of chunks the sender emits for a file. -/
def senderChunks (C : Nat) (bytes : Bytes) : List Bytes := sendLoop C bytes 0

lemma sendLoop_chunkLen (C : Nat) (bytes : Bytes) (offset : Nat) :
    ((bytes.drop offset).take C).length = min C (bytes.length - offset) := by
  simp [List.length_take, List.length_drop]

lemma sendLoop_flatten (C : Nat) (hC : 0 < C) (bytes : Bytes) :
    ∀ offset, (sendLoop C bytes offset).flatten = bytes.drop offset := by
  have key : ∀ n offset, bytes.length - offset ≤ n →
      (sendLoop C bytes offset).flatten = bytes.drop offset := by
    intro n
    induction n with
    | zero =>
      intro offset hle
      have hge : bytes.length ≤ offset := by omega
      rw [sendLoop, dif_neg (by omega : ¬ (offset < bytes.length ∧ 0 < C))]
      rw [List.flatten_nil]
      exact (List.drop_eq_nil_of_le hge).symm
    | succ n ih =>
      intro offset hle
      rw [sendLoop]
      by_cases h : offset < bytes.length ∧ 0 < C
      · rw [dif_pos h, List.flatten_cons]
        have hlen := sendLoop_chunkLen C bytes offset
        have hpos : 0 < ((bytes.drop offset).take C).length := by
          rw [hlen]; exact Nat.lt_min.mpr ⟨h.2, Nat.sub_pos_of_lt h.1⟩
        rw [ih (offset + ((bytes.drop offset).take C).length) (by omega)]
        have hdrop : bytes.drop (offset + ((bytes.drop offset).take C).length)
            = bytes.drop (offset + C) := by
          rcases Nat.le_total C (bytes.length - offset) with hc | hc
          · have : ((bytes.drop offset).take C).length = C := by omega
            rw [this]
          · have h1 : bytes.drop (offset + ((bytes.drop offset).take C).length) = [] :=
              List.drop_eq_nil_of_le (by omega)
            have h2 : bytes.drop (offset + C) = [] :=
              List.drop_eq_nil_of_le (by omega)
            rw [h1, h2]
        rw [hdrop]
        exact List.drop_take_append_drop bytes offset C
      · rw [dif_neg h, List.flatten_nil]
        have hge : bytes.length ≤ offset := by
          rcases Nat.lt_or_ge offset bytes.length with h1 | h1
          · exact absurd ⟨h1, hC⟩ h
          · exact h1
        exact (List.drop_eq_nil_of_le hge).symm
  intro offset
  exact key (bytes.length - offset) offset le_rfl

/-- Reassembling every sender chunk gives back the file, byte for byte. -/
lemma senderChunks_flatten (C : Nat) (hC : 0 < C) (bytes : Bytes) :
    (senderChunks C bytes).flatten = bytes := by
  simpa using sendLoop_flatten C hC bytes 0

lemma sendLoop_length (C : Nat) (hC : 0 < C) (bytes : Bytes) :
    ∀ offset, (sendLoop C bytes offset).length = chunkCount (bytes.length - offset) C := by
  have key : ∀ n offset, bytes.length - offset ≤ n →
      (sendLoop C bytes offset).length = chunkCount (bytes.length - offset) C := by
    intro n
    induction n with
    | zero =>
      intro offset hle
      rw [sendLoop, dif_neg (by omega : ¬ (offset < bytes.length ∧ 0 < C))]
      have hz : bytes.length - offset = 0 := by omega
      rw [List.length_nil, hz]
      unfold chunkCount
      exact (Nat.div_eq_of_lt (by omega)).symm
    | succ n ih =>
      intro offset hle
      rw [sendLoop]
      by_cases h : offset < bytes.length ∧ 0 < C
      · rw [dif_pos h, List.length_cons]
        set r := bytes.length - offset with hr
        have hrpos : 0 < r := by omega
        have hlen : ((bytes.drop offset).take C).length = min C r := by
          rw [sendLoop_chunkLen]
        have hpos : 0 < ((bytes.drop offset).take C).length := by
          rw [hlen]; exact Nat.lt_min.mpr ⟨h.2, hrpos⟩
        rw [ih (offset + ((bytes.drop offset).take C).length) (by omega)]
        rw [hlen]
        have hsub : bytes.length - (offset + min C r) = r - min C r := by omega
        rw [hsub]
        unfold chunkCount
        rcases Nat.le_total r C with hrc | hrc
        · -- last chunk: `min C r = r`, nothing remains, total is one chunk
          have hmin : min C r = r := Nat.min_eq_right hrc
          rw [hmin]
          have hz : r - r = 0 := by omega
          rw [hz]
          have hzero : (0 + C - 1) / C = 0 := Nat.div_eq_of_lt (by omega)
          have hone : (r + C - 1) / C = 1 := by
            have h2 : r + C - 1 = (r - 1) + C := by omega
            rw [h2, Nat.add_div_right _ h.2, Nat.div_eq_of_lt (by omega)]
          rw [hzero, hone]
        · -- a full chunk of size `C` is taken and the count recurses
          have hmin : min C r = C := Nat.min_eq_left hrc
          rw [hmin]
          have h1 : r - C + C - 1 = r - 1 := by omega
          have h2 : r + C - 1 = (r - 1) + C := by omega
          rw [h1, h2, Nat.add_div_right _ h.2]
      · rw [dif_neg h, List.length_nil]
        have hge : bytes.length ≤ offset := by
          rcases Nat.lt_or_ge offset bytes.length with h1 | h1
          · exact absurd ⟨h1, hC⟩ h
          · exact h1
        have hz : bytes.length - offset = 0 := by omega
        rw [hz]
        unfold chunkCount
        exact (Nat.div_eq_of_lt (by omega)).symm
  intro offset
  exact key (bytes.length - offset) offset le_rfl

/-- The sender emits exactly `ceil(N / C)` chunks. -/
lemma senderChunks_length (C : Nat) (hC : 0 < C) (bytes : Bytes) :
    (senderChunks C bytes).length = chunkCount bytes.length C := by
  simpa using sendLoop_length C hC bytes 0

/-! ## Security checker (`src/lib/security.ts`, `MinimalSecurityChecker`)

The checker works on `file.name.toLowerCase()` and only ever inspects the
name. We model JS `toLowerCase` by ASCII case mapping (all patterns the
checker tests for are ASCII). Regular-expression tests are translated into
the corresponding suffix / scan functions on the character list. -/

/-- Warning severity: `type: 'info' | 'caution'` in `SecurityWarning`. -/
inductive WarningType
  | info
  | caution
deriving Repr, DecidableEq

/-- Structure `SecurityWarning` from `security.ts`. -/
structure SecurityWarning where
  type : WarningType
  title : String
  message : String
  allowProceed : Bool
  icon : String
deriving Repr, DecidableEq

/-- ASCII lowering of one character, modelling `String.prototype.toLowerCase`
on the ASCII range. -/
def jsLowerChar (c : Char) : Char :=
  if 65 ≤ c.toNat ∧ c.toNat ≤ 90 then Char.ofNat (c.toNat + 32) else c

/-- The lower-cased file name, as a character list. -/
def jsLower (s : String) : List Char := s.data.map jsLowerChar

/-- Test `pattern.test(name)` for the anchored regex `/(...)$/`: the name ends
with the literal pattern. -/
def endsWithLit (pat : String) (l : List Char) : Bool := pat.data.isSuffixOf l

/-- Regex test `/\.(pdf|doc|docx|jpg|jpeg|png|txt|zip)\.exe$/i` on the lower-cased
name. -/
def doubleExtensionTest (l : List Char) : Bool :=
  [".pdf.exe", ".doc.exe", ".docx.exe", ".jpg.exe",
   ".jpeg.exe", ".png.exe", ".txt.exe", ".zip.exe"].any (endsWithLit · l)

/-- Regex test `/\.(scr|pif|com|cmd|bat|vbs|ps1)$/i` on the lower-cased name. -/
def highRiskExtensionsTest (l : List Char) : Bool :=
  [".scr", ".pif", ".com", ".cmd", ".bat", ".vbs", ".ps1"].any (endsWithLit · l)

/-- Hex digit as accepted by `/[0-9A-F]/i`. -/
def isHexDigitCI (c : Char) : Bool :=
  (48 ≤ c.toNat ∧ c.toNat ≤ 57) ∨ (97 ≤ c.toNat ∧ c.toNat ≤ 102) ∨
    (65 ≤ c.toNat ∧ c.toNat ≤ 70)

/-- Percent-encoding test `/%[0-9A-F]{2}/i.test(fileName)`: some `%` is followed by two hex
digits. -/
def hasPercentEncoding : List Char → Bool
  | c :: a :: b :: rest =>
      (c = '%' ∧ isHexDigitCI a ∧ isHexDigitCI b) ∨
        hasPercentEncoding (a :: b :: rest)
  | _ => false

/-- The zero-width / BOM test: a character in U+200B..U+200D or U+FEFF. -/
def hasZeroWidth (l : List Char) : Bool :=
  l.any fun c => (8203 ≤ c.toNat ∧ c.toNat ≤ 8205) ∨ c.toNat = 65279

/-- The JS `\s` character class (ECMAScript WhiteSpace plus LineTerminator). -/
def isJsWhitespace (c : Char) : Bool :=
  let n := c.toNat
  (9 ≤ n ∧ n ≤ 13) ∨ n = 32 ∨ n = 160 ∨ n = 5760 ∨
    (8192 ≤ n ∧ n ≤ 8202) ∨ n = 8232 ∨ n = 8233 ∨ n = 8239 ∨
    n = 8287 ∨ n = 12288 ∨ n = 65279

/-- Run test `p{3,}`: three consecutive characters satisfying `p`. -/
def hasRunOf3 (p : Char → Bool) : List Char → Bool
  | a :: b :: c :: rest => (p a ∧ p b ∧ p c) ∨ hasRunOf3 p (b :: c :: rest)
  | _ => false

/-- Function `hasObfuscatedName` from `security.ts`: percent-encoding, zero-width /
BOM characters, or `/\s{3,}|\.{3,}/` (a run of three whitespace characters
or of three dots). -/
def hasObfuscatedName (l : List Char) : Bool :=
  hasPercentEncoding l ∨ hasZeroWidth l ∨
    (hasRunOf3 isJsWhitespace l ∨ hasRunOf3 (· = '.') l)

/-- Function `getDisguisedType` from `security.ts` (input is the lower-cased name). -/
def getDisguisedType (l : List Char) : String :=
  if (".pdf.".data) <:+: l then ("PDF document")
  else if (".doc".data) <:+: l then ("Word document")
  else if (".jpg".data) <:+: l ∨ (".jpeg".data) <:+: l then ("image")
  else if (".png".data) <:+: l then ("image")
  else if (".txt".data) <:+: l then ("text file")
  else if (".zip".data) <:+: l then ("archive")
  else ("document")

/-- Last name component, `fileName.split('.').pop()`: the part after the last dot (the whole name
when it has no dot). -/
def lastComponent (l : List Char) : List Char :=
  (l.splitOn '.').getLastD []

/-- Function `getFileTypeDescription` from `security.ts` (input is the lower-cased
name, which the function lower-cases again — a no-op here). -/
def getFileTypeDescription (l : List Char) : String :=
  let ext := (lastComponent l).map jsLowerChar
  if ext = "scr".data then ("screensaver executable")
  else if ext = "pif".data then ("program information file")
  else if ext = "com".data then ("command file")
  else if ext = "cmd".data then ("command script")
  else if ext = "bat".data then ("batch script")
  else if ext = "vbs".data then ("VBScript file")
  else if ext = "ps1".data then ("PowerShell script")
  else ("system file")

/-- Method `MinimalSecurityChecker.checkFile`, which inspects only `file.name`:
rules applied in order to the lower-cased name, returning `null` (here
`none`) when no rule fires. -/
def checkFile (name : String) : Option SecurityWarning :=
  let fileName := jsLower name
  if doubleExtensionTest fileName then
    some { type := .caution,
           title := "Unusual file type detected",
           message := "This file appears to be an executable disguised as a "
             ++ getDisguisedType fileName
             ++ ". This pattern is commonly used by malware.",
           allowProceed := true, icon := "🛡️" }
  else if highRiskExtensionsTest fileName then
    some { type := .info,
           title := "System file type",
           message := "This is a " ++ getFileTypeDescription fileName
             ++ " that can execute commands on your computer.",
           allowProceed := true, icon := "ℹ️" }
  else if hasObfuscatedName fileName then
    some { type := .info,
           title := "Unusual filename",
           message := "This filename contains unusual characters that might be used to hide the real file type.",
           allowProceed := true, icon := "🔍" }
  else none

/-- Advisory levels as the specification describes the classifier result. -/
inductive Advisory
  | noWarning
  | caution
  | info
deriving Repr, DecidableEq

/-- The advisory level of a `checkFile` result. -/
def advisoryOf : Option SecurityWarning → Advisory
  | Option.none => .noWarning
  | some w => match w.type with
    | .caution => .caution
    | .info => .info

/-- The classifier exactly as the claim words it: priority rules over the
lower-cased name, where rule 3 counts runs of three or more SPACES or dots
(spaces literally, as the claim says). -/
def specClassify (name : String) : Advisory :=
  let l := jsLower name
  if doubleExtensionTest l then .caution
  else if highRiskExtensionsTest l then .info
  else if hasPercentEncoding l ∨ hasZeroWidth l ∨
      (hasRunOf3 (· = ' ') l ∨ hasRunOf3 (· = '.') l) then .info
  else .noWarning

/-- The classifier as the claim must be amended: rule 3 counts runs of three
or more WHITESPACE characters (JS `\s`) or dots, matching the source's
`/\s{3,}|\.{3,}/`. -/
def specClassifyAmended (name : String) : Advisory :=
  let l := jsLower name
  if doubleExtensionTest l then .caution
  else if highRiskExtensionsTest l then .info
  else if hasPercentEncoding l ∨ hasZeroWidth l ∨
      (hasRunOf3 isJsWhitespace l ∨ hasRunOf3 (· = '.') l) then .info
  else .noWarning

/-! ## Transfer and connection statuses (`types.ts` plus the extra string
statuses the manager assigns: `'pending-approval'`, `'cancelled'`). -/

inductive TransferStatus
  | pending
  | connecting
  | transferring
  | pendingApproval
  | completed
  | cancelled
  | failed
deriving Repr, DecidableEq

inductive ConnStatus
  | connecting
  | connected
  | disconnected
  | failed
deriving Repr, DecidableEq

/-! ## Receiver state machine
(`WebRTCManager.createReceiver`, `pc.ondatachannel` closure, first revision
of `webrtc.ts`; the second revision's receiver is structurally identical,
differing only in progress-feedback throttling, which is a parameter of the
chunk event here.)

The closure variables (`receivedFile`, `receivedChunks`, `bytesReceived`,
`expectedChunks`, `chunksReceived`, `transferPendingApproval`,
`pendingChunksBuffer`) become state fields. `receivedChunks` is a JS array
written at `chunkIndex = chunksReceived - 1`, always the next free index, so
it is modelled as the list of written entries in order;
`receivedChunks.filter(chunk => chunk)` at blob time keeps exactly those
entries. The tracked `transfer` is the first transfer inserted for this peer
connection, which is what
`Array.from(this.transfers.values()).find(t => t.peer === pc)` returns;
`transfersCreated` counts every `this.transfers.set` call of the closure.
Control messages sent over the channel are appended to `outMsgs`.
Progress is exact rational arithmetic; traces are assumed to deliver the
metadata message before chunk messages, as the sender does, so the JS
`Infinity` corner of `chunksReceived / expectedChunks` with
`expectedChunks = 0` and a chunk present does not arise. -/

/-- The receiver-side transfer record: the fields of `FileTransfer` the
claims are about (`status`, `progress`, and the rebuilt file). -/
structure TransferRec where
  status : TransferStatus
  progress : ℚ
  fileBytes : Option Bytes
deriving Repr, DecidableEq

/-- Control messages the receiver sends back over the data channel. -/
inductive CtrlMsg
  | pause
  | resume
  | cancel
  | progressSync (progress : ℚ) (chunksReceived : Nat) (totalChunks : Nat)
deriving Repr, DecidableEq

structure ReceiverState where
  receivedFile : Option FileMetadata
  receivedChunks : List Bytes
  bytesReceived : Nat
  expectedChunks : Nat
  chunksReceived : Nat
  transferPendingApproval : Bool
  pendingChunksBuffer : List Bytes
  transfer : Option TransferRec
  transfersCreated : Nat
  outMsgs : List CtrlMsg
  channelClosed : Bool
deriving Repr, DecidableEq

def recvInit : ReceiverState :=
  { receivedFile := none, receivedChunks := [], bytesReceived := 0,
    expectedChunks := 0, chunksReceived := 0, transferPendingApproval := false,
    pendingChunksBuffer := [], transfer := none, transfersCreated := 0,
    outMsgs := [], channelClosed := false }

/-- Events delivered to the receiver's `onmessage` handler. The handler is
`async`; the resolution of `await this.onReceiverSecurityWarning(...)` is the
separate `approval` event (chunk messages arriving during the wait run their
own handler invocations, which is what buffers them). `fb` is whether the
throttled progress feedback fires for this chunk, `ui` whether the throttled
UI progress update fires (both depend on `Date.now()`). -/
inductive RecvEvent
  | strMeta (m : FileMetadata)
  | binChunk (b : Bytes) (fb ui : Bool)
  | approval (approved : Bool)
deriving Repr, DecidableEq

/-- Apply `f` to the tracked transfer, when one exists (the `find` by peer
succeeding). -/
def updTransfer (f : TransferRec → TransferRec) (s : ReceiverState) : ReceiverState :=
  { s with transfer := s.transfer.map f }

/-- Track a newly created transfer: `find` keeps returning the first one
inserted for this peer connection. -/
def trackNewTransfer (s : ReceiverState) : ReceiverState :=
  { s with
    transfer := match s.transfer with
      | none => some { status := .transferring, progress := 0, fileBytes := none }
      | some t => some t,
    transfersCreated := s.transfersCreated + 1 }

/-- The string-message branch of the receiver's `onmessage` (non-`vpn-info`
messages are parsed as `FileMetadata`). `cb` is whether the host page
registered `onReceiverSecurityWarning`. When a warning fires and `cb` holds,
the handler sends `transfer-pause` and suspends on the approval `await`;
otherwise it creates the transfer and pre-allocates the chunk array. -/
def recvMetaStep (cb : Bool) (s : ReceiverState) (m : FileMetadata) : ReceiverState :=
  let s := { s with receivedFile := some m, expectedChunks := m.chunks }
  if (checkFile m.name).isSome ∧ cb then
    { s with transferPendingApproval := true, outMsgs := s.outMsgs ++ [.pause] }
  else
    { trackNewTransfer s with receivedChunks := [] }

/-- The continuation of the metadata handler after
`await this.onReceiverSecurityWarning(...)` resolves.

On rejection: `transferPendingApproval = false`, send `transfer-cancel`,
close the channel, return.

On approval: `transferPendingApproval = false`, send `transfer-resume`,
create the transfer, pre-allocate, fold every buffered chunk into
`receivedChunks` / `chunksReceived` / `bytesReceived`, clear the buffer and
(if any chunk was buffered) update the transfer's progress. Control then
falls THROUGH to the `if (!transferPendingApproval)` block of the metadata
handler — whose condition is now true — so a second transfer is created and
`receivedChunks = new Array(expectedChunks)` runs again, wiping the entries
the fold-in just wrote (their indices are `undefined` again; `chunksReceived`
and `bytesReceived` keep their folded values). -/
def recvApprovalStep (s : ReceiverState) (approved : Bool) : ReceiverState :=
  if ¬ s.transferPendingApproval then s
  else if approved then
    let s1 : ReceiverState := { s with transferPendingApproval := false,
                                       outMsgs := s.outMsgs ++ [.resume] }
    let s2 : ReceiverState := { trackNewTransfer s1 with receivedChunks := [] }
    let s3 : ReceiverState := { s2 with
      chunksReceived := s2.chunksReceived + s2.pendingChunksBuffer.length,
      receivedChunks := s2.pendingChunksBuffer,
      bytesReceived := s2.bytesReceived + (s2.pendingChunksBuffer.map List.length).sum,
      pendingChunksBuffer := [] }
    let s4 :=
      if 0 < s2.pendingChunksBuffer.length then
        updTransfer (fun t => { t with
          progress := min ((s3.chunksReceived : ℚ) / (s3.expectedChunks : ℚ) * 100) 100 }) s3
      else s3
    -- fall-through into the `if (!transferPendingApproval)` block
    { trackNewTransfer s4 with receivedChunks := [] }
  else
    { s with transferPendingApproval := false,
             outMsgs := s.outMsgs ++ [.cancel], channelClosed := true }

/-- The binary branch of the receiver's `onmessage`: drop the chunk when no
metadata has arrived; buffer it while approval is pending; otherwise append
it to the assembly, send throttled `progress-sync` feedback, apply the
throttled UI progress update, and when `chunksReceived >= expectedChunks`
build the blob, wipe the chunk array, and complete the transfer. -/
def recvChunkStep (s : ReceiverState) (b : Bytes) (fb ui : Bool) : ReceiverState :=
  if s.receivedFile = none then s
  else if s.transferPendingApproval then
    { s with pendingChunksBuffer := s.pendingChunksBuffer ++ [b] }
  else
    let cR := s.chunksReceived + 1
    let p : ℚ := (cR : ℚ) / (s.expectedChunks : ℚ) * 100
    let s1 := { s with chunksReceived := cR,
                       receivedChunks := s.receivedChunks ++ [b],
                       bytesReceived := s.bytesReceived + b.length }
    let s2 := if fb then
        { s1 with outMsgs := s1.outMsgs ++ [.progressSync p cR s1.expectedChunks] }
      else s1
    let s3 := if ui ∨ 100 ≤ p then
        updTransfer (fun t => { t with progress := min p 100 }) s2
      else s2
    if s3.expectedChunks ≤ cR then
      let file := s3.receivedChunks.flatten
      let s4 := updTransfer (fun t =>
        { t with status := .completed, progress := 100, fileBytes := some file }) s3
      { s4 with receivedChunks := [] }
    else s3

def recvStep (cb : Bool) (s : ReceiverState) : RecvEvent → ReceiverState
  | .strMeta m => recvMetaStep cb s m
  | .binChunk b fb ui => recvChunkStep s b fb ui
  | .approval ok => recvApprovalStep s ok

def recvRun (cb : Bool) (events : List RecvEvent) : ReceiverState :=
  events.foldl (recvStep cb) recvInit

/-! ## Sender side -/

/-- Messages the sender emits on the data channel. -/
inductive SenderMsg
  | metaMsg (m : FileMetadata)
  | chunkMsg (b : Bytes)
deriving Repr, DecidableEq

/-- Outcome of an uninterrupted `startFileSending` run. -/
structure SendOutcome where
  msgs : List SenderMsg
  status : TransferStatus
  progress : ℚ
deriving Repr, DecidableEq

/-- Method `WebRTCManager.startFileSending` (first revision), for a run with no
pause, cancellation or send error: sends the metadata message, runs the chunk
loop (`file.slice(offset, offset + chunkSize)` while `offset < file.size`,
each slice sent with backpressure), waits for `bufferedAmount` to drain to 0,
then sets `progress = 100` and `status = 'completed'`. This revision never
updates sender-side progress inside the loop (it relies on receiver
`progress-sync`). -/
def startFileSending (name ftype : String) (lastModified : Nat)
    (bytes : Bytes) (C : Nat) : SendOutcome :=
  let m := senderMetadata name ftype lastModified bytes C
  { msgs := .metaMsg m :: (sendLoop C bytes 0).map .chunkMsg,
    status := .completed, progress := 100 }

/-- Receiver events corresponding to a sender message stream (ordered
reliable channel); feedback/UI throttle flags are fixed to `false`, which
only suppresses optional side updates. -/
def eventOfMsg : SenderMsg → RecvEvent
  | .metaMsg m => .strMeta m
  | .chunkMsg b => .binChunk b false false

/-! ### Sender-side progress writers (first revision)

The events that touch the sender's transfer from the event loop:
`dataChannel.onmessage` (lines 150–208) — `progress-sync` adoption is
`transfer.progress = Math.min(data.progress, 100)` (unconditional, no
completed-guard; only the `onTransferUpdate` UI callback is throttled),
`transfer-pause` sets `'pending-approval'`, `transfer-resume` restores
`'transferring'` when pending, `transfer-cancel` sets `'cancelled'` — and
the `startFileSending` epilogue after the `bufferedAmount` drain, which sets
`transfer.progress = 100` and `transfer.status = 'completed'` on its own
(lines 814–817). The epilogue is the only sender-side progress writer other
than the sync adoption. -/

structure SenderAState where
  progress : ℚ
  status : TransferStatus
deriving Repr, DecidableEq

inductive SenderAEvent
  | progressSync (v : ℚ)
  | pauseReq
  | resumeReq
  | cancelReq
  | pumpComplete
deriving Repr, DecidableEq

def senderAStep (s : SenderAState) : SenderAEvent → SenderAState
  | .progressSync v => { s with progress := min v 100 }
  | .pauseReq => { s with status := .pendingApproval }
  | .resumeReq =>
      if s.status = .pendingApproval then { s with status := .transferring } else s
  | .cancelReq => { s with status := .cancelled }
  | .pumpComplete => { s with progress := 100, status := .completed }

/-- Sender transfer state once the chunk pump has started. -/
def senderAInit : SenderAState := { progress := 0, status := .transferring }

/-- The sequence of progress values observable on the sender over time: the
value before the trace and after each event. -/
def progressTraceA (s : SenderAState) : List SenderAEvent → List ℚ
  | [] => [s.progress]
  | e :: es => s.progress :: progressTraceA (senderAStep s e) es

/-- The `progress-sync` values carried by a trace, in order. -/
def syncValues : List SenderAEvent → List ℚ
  | [] => []
  | .progressSync v :: es => v :: syncValues es
  | .pauseReq :: es => syncValues es
  | .resumeReq :: es => syncValues es
  | .cancelReq :: es => syncValues es
  | .pumpComplete :: es => syncValues es

/-! ### Sender `dataChannel.onerror` / `onclose` (first revision, lines
210–232): both guard on the transfer already being `'completed'`. -/

structure SenderChannelState where
  tStatus : TransferStatus
  cStatus : ConnStatus
deriving Repr, DecidableEq

inductive ChannelEvent
  | errorEvt
  | closeEvt
deriving Repr, DecidableEq

def channelStep (s : SenderChannelState) : ChannelEvent → SenderChannelState
  | .errorEvt =>
      if s.tStatus = .completed then s
      else { tStatus := .failed, cStatus := .failed }
  | .closeEvt =>
      if s.tStatus = .completed then s
      else { s with cStatus := .disconnected }

def channelRun (s : SenderChannelState) (es : List ChannelEvent) : SenderChannelState :=
  es.foldl channelStep s

/-! ### Sender `pc.oniceconnectionstatechange` (first revision, lines
278–348)

On `'failed'` the handler increments `iceFailureCount` FIRST (line 287) and
only then early-returns when the transfer is already completed (lines
289–292). While `iceFailureCount <= maxRetries` (= 1) it builds
`turnOnlyConfig` — the TURN servers with `iceTransportPolicy: 'relay'` — and
puts both statuses back to `'connecting'` ("mark as retry mode"); past the
limit it sets both statuses to `'failed'`. `'connected'` resets the counter.

The handler's externally visible operations are recorded in `actions`. Note
that although it logs "Creating TURN-only fallback connection", NO code path
applies `turnOnlyConfig` to anything: there is no `restartIce`,
`setConfiguration` or new `RTCPeerConnection` in the handler or anywhere it
reaches, so a `connectionRestart` action is never emitted — building the
config is all that happens. -/

inductive IcePolicy
  | all
  | relay
deriving Repr, DecidableEq

inductive IceEvent
  | failed
  | connected
  | disconnected
  | checking
deriving Repr, DecidableEq

/-- Operations of the failure handler that touch connection establishment:
constructing a configuration object, and applying one to a connection
(restart / reconnection). The source only ever performs the former. -/
inductive IceAction
  | buildConfig (policy : IcePolicy)
  | connectionRestart (policy : IcePolicy)
deriving Repr, DecidableEq

structure IceRetryState where
  iceFailureCount : Nat
  tStatus : TransferStatus
  cStatus : ConnStatus
  actions : List IceAction
deriving Repr, DecidableEq

def iceStep (s : IceRetryState) : IceEvent → IceRetryState
  | .failed =>
      let c := s.iceFailureCount + 1
      if s.tStatus = .completed then { s with iceFailureCount := c }
      else if c ≤ 1 then
        { s with iceFailureCount := c, tStatus := .connecting,
                 cStatus := .connecting,
                 actions := s.actions ++ [.buildConfig .relay] }
      else
        { s with iceFailureCount := c, tStatus := .failed, cStatus := .failed }
  | .connected => { s with iceFailureCount := 0 }
  | .disconnected => s
  | .checking => s

def iceInit : IceRetryState :=
  { iceFailureCount := 0, tStatus := .connecting, cStatus := .connecting,
    actions := [] }

def iceRun (s : IceRetryState) (es : List IceEvent) : IceRetryState :=
  es.foldl iceStep s

/-! ### Sender chunk pump of the SECOND revision (lines 2400–2497), which
keeps sender-local progress: per chunk sent, `localProgress = (chunksSent /
totalChunks) * 100`, adopted as `Math.min(localProgress, 95)` only when above
the current progress; after the loop and the `bufferedAmount` drain,
`progress = 100` and `status = 'completed'`. Its `onmessage` adopts
`progress-sync` as `Math.min(data.progress, 100)`. -/

structure SenderBState where
  progress : ℚ
  status : TransferStatus
  chunksSent : Nat
  totalChunks : Nat
deriving Repr, DecidableEq

inductive SenderBEvent
  | chunkSent
  | progressSync (v : ℚ)
  | drainedComplete
  | pauseReq
  | resumeReq
  | cancelReq
deriving Repr, DecidableEq

def senderBStep (s : SenderBState) : SenderBEvent → SenderBState
  | .chunkSent =>
      let cS := s.chunksSent + 1
      let localProgress : ℚ := (cS : ℚ) / (s.totalChunks : ℚ) * 100
      let s1 := { s with chunksSent := cS }
      if s.progress < localProgress then { s1 with progress := min localProgress 95 }
      else s1
  | .progressSync v => { s with progress := min v 100 }
  | .drainedComplete => { s with progress := 100, status := .completed }
  | .pauseReq => { s with status := .pendingApproval }
  | .resumeReq =>
      if s.status = .pendingApproval then { s with status := .transferring } else s
  | .cancelReq => { s with status := .cancelled }

def senderBInit (total : Nat) : SenderBState :=
  { progress := 0, status := .transferring, chunksSent := 0, totalChunks := total }

def senderBRun (s : SenderBState) (es : List SenderBEvent) : SenderBState :=
  es.foldl senderBStep s

def isProgressSyncB : SenderBEvent → Bool
  | .progressSync _ => true
  | _ => false

/-! ## PIN verification (`proceedWithDownload` on the share page) -/

/-- A nibble as a lowercase hex character. -/
def hexDigit (n : Nat) : Char :=
  if n < 10 then Char.ofNat (48 + n) else Char.ofNat (87 + n)

/-- Modelled from the spec: `sha256Hex` is defined in `src/lib/utils.ts`,
which is not under `src/` (only its callers are). The spec describes it as a
one-way hash of a short numeric/text code, computed independently on both
sides and compared for equality. It is modelled as a deterministic digest
(two hex characters per input character), which distinguishes distinct short
PIN strings the way a collision-free hash does; one-wayness is not needed by
any claim. -/
def sha256Hex (s : String) : String :=
  String.mk (List.flatten (s.data.map fun c =>
    [hexDigit (c.toNat / 16 % 16), hexDigit (c.toNat % 16)]))

/-- Outcome of the PIN gate inside `proceedWithDownload`: blocked locally
with a `pinError`, or proceeding to the connect phase (creating the receiver
connection, answering the offer and signaling it). -/
inductive DownloadOutcome
  | blocked (pinError : String)
  | connect
deriving Repr, DecidableEq

/-- The PIN verification segment of `proceedWithDownload` (share page):
when the fetched record carries a `pinHash`, an empty entry is rejected with
"PIN is required", a hash mismatch with "Incorrect PIN" (both return before
any network step); only on a match (or with no `pinHash`) does the flow reach
the connect phase. The second component lists the network requests issued:
none on the blocked paths, the answer signaling `POST /api/signal` once the
connect phase runs. -/
def proceedWithDownload (pinHash : Option String) (pinInput : String) :
    DownloadOutcome × List String :=
  match pinHash with
  | none => (.connect, ["POST /api/signal"])
  | some stored =>
      if pinInput = "" then (.blocked ("PIN is required"), [])
      else if sha256Hex pinInput = stored then (.connect, ["POST /api/signal"])
      else (.blocked ("Incorrect PIN"), [])

/-! ## Run-characterization lemmas for the receiver machine -/

/-- Run the receiver from an arbitrary state. -/
def recvRunFrom (cb : Bool) (s : ReceiverState) (es : List RecvEvent) : ReceiverState :=
  es.foldl (recvStep cb) s

/-- Chunk events for a list of chunks, with both throttle flags off. -/
def chunkEvents (cs : List Bytes) : List RecvEvent :=
  cs.map (fun b => .binChunk b false false)

lemma recvRun_eq_runFrom (cb : Bool) (es : List RecvEvent) :
    recvRun cb es = recvRunFrom cb recvInit es := rfl

lemma recvRunFrom_nil (cb : Bool) (s : ReceiverState) :
    recvRunFrom cb s [] = s := rfl

lemma recvRunFrom_cons (cb : Bool) (s : ReceiverState) (e : RecvEvent)
    (es : List RecvEvent) :
    recvRunFrom cb s (e :: es) = recvRunFrom cb (recvStep cb s e) es := rfl

lemma pct_lt_100 {cR n : Nat} (h : cR < n) : ((cR : ℚ) / (n : ℚ)) * 100 < 100 := by
  have hn0 : 0 < n := by omega
  have hn : (0 : ℚ) < (n : ℚ) := by exact_mod_cast hn0
  have hdiv : (cR : ℚ) / (n : ℚ) < 1 := (div_lt_one hn).mpr (by exact_mod_cast h)
  calc ((cR : ℚ) / (n : ℚ)) * 100 < 1 * 100 := by
        exact mul_lt_mul_of_pos_right hdiv (by norm_num)
    _ = 100 := by norm_num

lemma pct_eq_100 {n : Nat} (h : 0 < n) : ((n : ℚ) / (n : ℚ)) * 100 = 100 := by
  rw [div_self (by exact_mod_cast h.ne' : (n : ℚ) ≠ 0), one_mul]

/-- A chunk in mid-transfer (metadata present, no approval pending, not the
last expected chunk) extends the assembly; the tracked transfer is untouched
(the `ui` throttle is off and progress is still below 100). -/
lemma recvChunkStep_mid (s : ReceiverState) (b : Bytes)
    (hmeta : s.receivedFile.isSome) (hpa : s.transferPendingApproval = false)
    (hlt : s.chunksReceived + 1 < s.expectedChunks) :
    recvChunkStep s b false false =
      { s with chunksReceived := s.chunksReceived + 1,
               receivedChunks := s.receivedChunks ++ [b],
               bytesReceived := s.bytesReceived + b.length } := by
  have hne : ¬ s.receivedFile = none := by
    cases h : s.receivedFile with
    | none => rw [h] at hmeta; simp at hmeta
    | some m => simp
  have h4 : ¬ (100 : ℚ) ≤ ((s.chunksReceived + 1 : Nat) : ℚ) / (s.expectedChunks : ℚ) * 100 :=
    not_le.mpr (pct_lt_100 hlt)
  push_cast at h4
  have h5 : ¬ s.expectedChunks ≤ s.chunksReceived + 1 := by omega
  simp [recvChunkStep, hne, hpa, h4, h5]

/-- The last expected chunk completes the transfer: the blob is the flatten
of the written entries, the chunk array is wiped, the tracked transfer
becomes `completed` with progress 100 and the rebuilt file. -/
lemma recvChunkStep_last (s : ReceiverState) (b : Bytes)
    (hmeta : s.receivedFile.isSome) (hpa : s.transferPendingApproval = false)
    (heq : s.chunksReceived + 1 = s.expectedChunks) :
    recvChunkStep s b false false =
      { s with chunksReceived := s.chunksReceived + 1,
               receivedChunks := [],
               bytesReceived := s.bytesReceived + b.length,
               transfer := s.transfer.map (fun _ =>
                 { status := .completed, progress := 100,
                   fileBytes := some ((s.receivedChunks ++ [b]).flatten) }) } := by
  have hne : ¬ s.receivedFile = none := by
    cases h : s.receivedFile with
    | none => rw [h] at hmeta; simp at hmeta
    | some m => simp
  have hn : 0 < s.expectedChunks := by omega
  have h4 : ((s.chunksReceived + 1 : Nat) : ℚ) / (s.expectedChunks : ℚ) * 100 = 100 := by
    rw [heq]; exact pct_eq_100 hn
  push_cast at h4
  have h5 : s.expectedChunks ≤ s.chunksReceived + 1 := by omega
  cases htr : s.transfer with
  | none => simp [recvChunkStep, hne, hpa, h4, h5, htr, updTransfer]
  | some t => simp [recvChunkStep, hne, hpa, h4, h5, htr, updTransfer]

/-- A chunk arriving while approval is pending is only buffered. -/
lemma recvChunkStep_buffered (s : ReceiverState) (b : Bytes) (fb ui : Bool)
    (hmeta : s.receivedFile.isSome) (hpa : s.transferPendingApproval = true) :
    recvChunkStep s b fb ui =
      { s with pendingChunksBuffer := s.pendingChunksBuffer ++ [b] } := by
  have hne : ¬ s.receivedFile = none := by
    cases h : s.receivedFile with
    | none => rw [h] at hmeta; simp at hmeta
    | some m => simp
  simp [recvChunkStep, hne, hpa]

/-- Folding a mid-transfer chunk stream that stays short of completion. -/
lemma recvRunFrom_chunks_mid (cb : Bool) (cs : List Bytes) :
    ∀ s : ReceiverState, s.receivedFile.isSome →
      s.transferPendingApproval = false →
      s.chunksReceived + cs.length < s.expectedChunks →
      recvRunFrom cb s (chunkEvents cs) =
        { s with chunksReceived := s.chunksReceived + cs.length,
                 receivedChunks := s.receivedChunks ++ cs,
                 bytesReceived := s.bytesReceived + (cs.map List.length).sum } := by
  induction cs with
  | nil => intro s _ _ _; simp [chunkEvents, recvRunFrom]
  | cons c cs ih =>
    intro s hmeta hpa hlt
    have hstep := recvChunkStep_mid s c hmeta hpa (by simp at hlt; omega)
    simp only [chunkEvents, List.map_cons, recvRunFrom_cons]
    show recvRunFrom cb (recvChunkStep s c false false) (chunkEvents cs) = _
    rw [hstep]
    rw [ih _ (by simpa using hmeta) (by simp [hpa]) (by simp at hlt ⊢; omega)]
    simp [List.append_assoc]
    omega

/-- Folding a chunk stream that exactly reaches `expectedChunks` completes
the transfer with the flatten of all written entries. -/
lemma recvRunFrom_chunks_last (cb : Bool) (cs : List Bytes) :
    ∀ s : ReceiverState, s.receivedFile.isSome →
      s.transferPendingApproval = false →
      cs ≠ [] →
      s.chunksReceived + cs.length = s.expectedChunks →
      recvRunFrom cb s (chunkEvents cs) =
        { s with chunksReceived := s.chunksReceived + cs.length,
                 receivedChunks := [],
                 bytesReceived := s.bytesReceived + (cs.map List.length).sum,
                 transfer := s.transfer.map (fun _ =>
                   { status := .completed, progress := 100,
                     fileBytes := some ((s.receivedChunks ++ cs).flatten) }) } := by
  induction cs with
  | nil => intro s _ _ hne _; exact absurd rfl hne
  | cons c cs ih =>
    intro s hmeta hpa _ hlen
    simp only [chunkEvents, List.map_cons, recvRunFrom_cons]
    show recvRunFrom cb (recvChunkStep s c false false) (chunkEvents cs) = _
    cases hcs : cs with
    | nil =>
      subst hcs
      have hstep := recvChunkStep_last s c hmeta hpa (by simp at hlen; omega)
      rw [hstep]
      simp [chunkEvents, recvRunFrom]
    | cons c2 cs2 =>
      subst hcs
      have hlt : s.chunksReceived + 1 < s.expectedChunks := by
        simp at hlen; omega
      rw [recvChunkStep_mid s c hmeta hpa hlt]
      rw [ih _ (by simpa using hmeta) (by simp [hpa]) (by simp) (by simp at hlen ⊢; omega)]
      simp [List.append_assoc]
      omega

/-- Folding a chunk stream while approval is pending: everything is
buffered, in order, and nothing else changes. -/
lemma recvRunFrom_chunks_buffered (cb : Bool) (cs : List Bytes) (fb ui : Bool) :
    ∀ s : ReceiverState, s.receivedFile.isSome →
      s.transferPendingApproval = true →
      recvRunFrom cb s (cs.map (fun b => .binChunk b fb ui)) =
        { s with pendingChunksBuffer := s.pendingChunksBuffer ++ cs } := by
  induction cs with
  | nil => intro s _ _; simp [recvRunFrom]
  | cons c cs ih =>
    intro s hmeta hpa
    simp only [List.map_cons, recvRunFrom_cons]
    show recvRunFrom cb (recvChunkStep s c fb ui) _ = _
    rw [recvChunkStep_buffered s c fb ui hmeta hpa]
    rw [ih _ (by simpa using hmeta) (by simp [hpa])]
    simp [List.append_assoc]

/-- Metadata arriving at a fresh receiver when no gate fires (no warning, or
no approval callback registered): the transfer is created immediately. -/
lemma recvMetaStep_init_plain (cb : Bool) (m : FileMetadata)
    (h : ¬ ((checkFile m.name).isSome ∧ cb = true)) :
    recvMetaStep cb recvInit m =
      { recvInit with receivedFile := some m, expectedChunks := m.chunks,
                      transfer := some { status := .transferring, progress := 0,
                                         fileBytes := none },
                      transfersCreated := 1 } := by
  unfold recvMetaStep
  rw [if_neg (by simpa using h)]
  simp [trackNewTransfer, recvInit]

/-- Metadata arriving at a fresh receiver whose name fires the security
check, with the approval callback registered: the receiver sends
`transfer-pause`, defers transfer creation and waits. -/
lemma recvMetaStep_init_warn (m : FileMetadata)
    (h : (checkFile m.name).isSome) :
    recvMetaStep true recvInit m =
      { recvInit with receivedFile := some m, expectedChunks := m.chunks,
                      transferPendingApproval := true,
                      outMsgs := [.pause] } := by
  unfold recvMetaStep
  rw [if_pos (by simp [h])]
  simp [recvInit]

/-- Approval granted while chunks sit in the pause buffer: the receiver
sends `transfer-resume`, creates the transfer, folds the buffered chunks
into the counters and (via the fall-through into the metadata-path
`if (!transferPendingApproval)` block) re-allocates the chunk array, wiping
the folded entries; a second transfer is inserted into the map. -/
lemma recvApprovalStep_approved (s : ReceiverState)
    (hpa : s.transferPendingApproval = true) (ht : s.transfer = none) :
    recvApprovalStep s true =
      { s with transferPendingApproval := false,
               outMsgs := s.outMsgs ++ [.resume],
               transfer := some
                 { status := .transferring,
                   progress :=
                     if 0 < s.pendingChunksBuffer.length then
                       min (((s.chunksReceived + s.pendingChunksBuffer.length : Nat) : ℚ)
                         / (s.expectedChunks : ℚ) * 100) 100
                     else 0,
                   fileBytes := none },
               transfersCreated := s.transfersCreated + 2,
               chunksReceived := s.chunksReceived + s.pendingChunksBuffer.length,
               receivedChunks := [],
               bytesReceived :=
                 s.bytesReceived + (s.pendingChunksBuffer.map List.length).sum,
               pendingChunksBuffer := [] } := by
  unfold recvApprovalStep
  rw [if_neg (by simp [hpa]), if_pos rfl]
  simp only [trackNewTransfer, ht, updTransfer]
  by_cases hk : 0 < s.pendingChunksBuffer.length
  · simp [hk]
  · simp [hk]

lemma sendLoop_nil (C : Nat) : sendLoop C [] 0 = [] := by
  rw [sendLoop]; simp

lemma chunkCount_pos {N C : Nat} (hC : 0 < C) (hN : 0 < N) :
    0 < chunkCount N C :=
  Nat.div_pos (by omega) hC

/-- The sender's message stream, as receiver events. -/
lemma startFileSending_events (name ftype : String) (lm : Nat)
    (bytes : Bytes) (C : Nat) :
    (startFileSending name ftype lm bytes C).msgs.map eventOfMsg =
      RecvEvent.strMeta (senderMetadata name ftype lm bytes C)
        :: chunkEvents (senderChunks C bytes) := by
  simp [startFileSending, eventOfMsg, chunkEvents, senderChunks, List.map_map]

/-- Feeding the full sender stream of a non-empty file into a receiver with
no approval gate: the run completes with the original bytes. -/
lemma recvRun_plain_complete (name ftype : String) (lm : Nat)
    (bytes : Bytes) (C : Nat) (hC : 0 < C) (hb : bytes ≠ []) :
    recvRun false ((startFileSending name ftype lm bytes C).msgs.map eventOfMsg) =
      { recvInit with
          receivedFile := some (senderMetadata name ftype lm bytes C),
          expectedChunks := chunkCount bytes.length C,
          transfer := some { status := .completed, progress := 100,
                             fileBytes := some bytes },
          transfersCreated := 1,
          chunksReceived := chunkCount bytes.length C,
          receivedChunks := [],
          bytesReceived := bytes.length } := by
  rw [startFileSending_events, recvRun_eq_runFrom, recvRunFrom_cons]
  have hplain := recvMetaStep_init_plain false (senderMetadata name ftype lm bytes C)
    (by simp)
  show recvRunFrom false (recvMetaStep false recvInit _) _ = _
  rw [hplain]
  have hlen := senderChunks_length C hC bytes
  have hcs : senderChunks C bytes ≠ [] := by
    intro hnil
    have h0 : 0 < bytes.length := by
      cases bytes with
      | nil => exact absurd rfl hb
      | cons a l => simp
    have := chunkCount_pos hC h0
    rw [hnil] at hlen
    simp at hlen
    omega
  rw [recvRunFrom_chunks_last false (senderChunks C bytes) _ (by simp)
    (by simp [recvInit]) hcs (by simp [recvInit, senderMetadata, hlen])]
  have hsum : ((senderChunks C bytes).map List.length).sum = bytes.length := by
    rw [← List.length_flatten, senderChunks_flatten C hC bytes]
  have hflat : (senderChunks C bytes).flatten = bytes := senderChunks_flatten C hC bytes
  simp [recvInit, senderMetadata, hlen, hsum, hflat]

/-- Feeding the (chunkless) sender stream of an empty file: the receiver
creates the transfer but nothing ever completes it. -/
lemma recvRun_plain_empty (name ftype : String) (lm : Nat) (C : Nat) :
    recvRun false ((startFileSending name ftype lm [] C).msgs.map eventOfMsg) =
      { recvInit with
          receivedFile := some (senderMetadata name ftype lm [] C),
          expectedChunks := chunkCount 0 C,
          transfer := some { status := .transferring, progress := 0,
                             fileBytes := none },
          transfersCreated := 1 } := by
  rw [startFileSending_events]
  unfold senderChunks
  rw [sendLoop_nil]
  rw [recvRun_eq_runFrom, recvRunFrom_cons]
  show recvRunFrom false (recvMetaStep false recvInit _) _ = _
  rw [recvMetaStep_init_plain false _ (by simp)]
  simp [chunkEvents, recvRunFrom, senderMetadata]

/-! ## Claim theorems -/

/-- C1: for every file and the sender's chunk size `C > 0`, the metadata's
chunk count is `ceil(N / C)` (with `N = 10,000,000`, `C = 16,384` giving
611), and a transfer the receiver completes reassembles a file of exactly
`N` bytes (indeed the very same bytes): every completed tracked transfer
carries a rebuilt file equal to the input, and for a non-empty file the full
sender stream does complete the receiver with `chunksReceived` equal to the
advertised chunk count. -/
theorem chunk_count_and_reassembly (name ftype : String) (lm : Nat)
    (bytes : Bytes) (C : Nat) (hC : 0 < C) :
    (senderMetadata name ftype lm bytes C).chunks = chunkCount bytes.length C ∧
    chunkCount 10000000 16384 = 611 ∧
    (∀ t, (recvRun false ((startFileSending name ftype lm bytes C).msgs.map eventOfMsg)).transfer = some t →
        t.status = .completed →
        ∃ f, t.fileBytes = some f ∧ f = bytes ∧ f.length = bytes.length) ∧
    (bytes ≠ [] →
      (recvRun false ((startFileSending name ftype lm bytes C).msgs.map eventOfMsg)).transfer =
        some { status := .completed, progress := 100, fileBytes := some bytes } ∧
      (recvRun false ((startFileSending name ftype lm bytes C).msgs.map eventOfMsg)).chunksReceived =
        (senderMetadata name ftype lm bytes C).chunks) := by
  refine ⟨rfl, by decide, ?_, ?_⟩
  · intro t ht hst
    by_cases hb : bytes = []
    · subst hb
      rw [recvRun_plain_empty] at ht
      simp at ht
      rw [← ht] at hst
      simp at hst
    · rw [recvRun_plain_complete name ftype lm bytes C hC hb] at ht
      simp at ht
      exact ⟨bytes, by rw [← ht], rfl, rfl⟩
  · intro hb
    rw [recvRun_plain_complete name ftype lm bytes C hC hb]
    exact ⟨rfl, rfl⟩

/-- C1 witness: a 3-byte file with chunk size 2 completes the receiver with
the original bytes. -/
theorem chunk_count_and_reassembly_witness :
    (recvRun false ((startFileSending ("a.bin") ("application/octet-stream") 0
        [1, 2, 3] 2).msgs.map eventOfMsg)).transfer =
      some { status := .completed, progress := 100, fileBytes := some [1, 2, 3] } :=
  ((chunk_count_and_reassembly ("a.bin") ("application/octet-stream") 0
    [1, 2, 3] 2 (by decide)).2.2.2 (by simp)).1

/-- C2: for a zero-byte file the advertised `chunkCount` is 0 and the sender
sends only the metadata message, marking its transfer completed without any
chunk message — but the receiver does NOT complete: its completion check
(`chunksReceived >= expectedChunks`) sits inside the binary-chunk branch of
`onmessage`, which never runs when no chunk message arrives, so the
receiver's transfer stays `'transferring'` forever. This evaluates the code
at the failing input of the claim. -/
theorem zero_byte_receiver_never_completes :
    (senderMetadata ("empty.bin") ("application/octet-stream") 0 [] 65536).chunks = 0 ∧
    (startFileSending ("empty.bin") ("application/octet-stream") 0 [] 65536).msgs =
      [.metaMsg (senderMetadata ("empty.bin") ("application/octet-stream") 0 [] 65536)] ∧
    (startFileSending ("empty.bin") ("application/octet-stream") 0 [] 65536).status = .completed ∧
    (startFileSending ("empty.bin") ("application/octet-stream") 0 [] 65536).progress = 100 ∧
    (recvRun true [.strMeta (senderMetadata ("empty.bin") ("application/octet-stream") 0 [] 65536)]).transfer =
      some { status := .transferring, progress := 0, fileBytes := none } ∧
    (recvRun true [.strMeta (senderMetadata ("empty.bin") ("application/octet-stream") 0 [] 65536)]).transfer ≠
      some { status := .completed, progress := 100, fileBytes := none } := by
  refine ⟨by decide, ?_, rfl, rfl, by decide, by decide⟩
  simp only [startFileSending, sendLoop_nil, List.map_nil]

/-- C4: once the sender's transfer is `'completed'`, any sequence of data
channel `error` / `close` events leaves the whole handler state unchanged —
in particular the transfer status stays `'completed'` and is never downgraded
to `'failed'`, and the connection status is never downgraded to
`'disconnected'`. -/
theorem completed_never_downgraded (es : List ChannelEvent)
    (s : SenderChannelState) (h : s.tStatus = .completed) :
    channelRun s es = s ∧ (channelRun s es).tStatus = .completed := by
  have key : channelRun s es = s := by
    induction es with
    | nil => rfl
    | cons e es ih =>
      show channelRun (channelStep s e) es = s
      have hstep : channelStep s e = s := by
        cases e with
        | errorEvt => simp [channelStep, h]
        | closeEvt => simp [channelStep, h]
      rw [hstep, ih]
  exact ⟨key, by rw [key, h]⟩

/-- C4 witness: a completed transfer survives an error-close-error burst. -/
theorem completed_never_downgraded_witness :
    channelRun { tStatus := .completed, cStatus := .connected }
        [.errorEvt, .closeEvt, .errorEvt] =
      { tStatus := .completed, cStatus := .connected } :=
  (completed_never_downgraded [.errorEvt, .closeEvt, .errorEvt]
    { tStatus := .completed, cStatus := .connected } rfl).1

/-- C10: a binary chunk arriving before any metadata message is silently
discarded: the receiver state (assembly counters, buffers, tracked transfer,
sent messages) is exactly unchanged, for any throttle flags and whether or
not the approval callback is registered. -/
theorem chunk_before_metadata_discarded (cb : Bool) (s : ReceiverState)
    (b : Bytes) (fb ui : Bool) (h : s.receivedFile = none) :
    recvStep cb s (.binChunk b fb ui) = s := by
  show recvChunkStep s b fb ui = s
  unfold recvChunkStep
  rw [if_pos h]

/-- C10 witness: a chunk into the fresh receiver changes nothing. -/
theorem chunk_before_metadata_discarded_witness :
    recvStep true recvInit (.binChunk [9, 9] true true) = recvInit :=
  chunk_before_metadata_discarded true recvInit [9, 9] true true rfl

/-- A 2-chunk file whose name fires the security gate; one chunk races the
pause window. -/
def c3Meta : FileMetadata :=
  { name := "invoice.pdf.exe", size := 2, type := "application/octet-stream",
    lastModified := 0, chunks := 2 }

/-- C3: evaluation of the code at the claim's failing input. The chunk that
arrives during the pause window IS buffered, and on approval it IS folded
into `chunksReceived` / `bytesReceived` — but the approval continuation then
falls through into the metadata handler's `if (!transferPendingApproval)`
block (whose flag was just cleared), which re-runs
`receivedChunks = new Array(expectedChunks)` and wipes the folded entries.
The paused-then-resumed session therefore rebuilds only the post-approval
chunks (`[2]`), while the never-paused session rebuilds the whole file
(`[1, 2]`): the reconstructed files differ. -/
theorem paused_resume_wipes_buffered_chunks :
    (recvRunFrom true recvInit
      [.strMeta c3Meta, .binChunk [1] false true]).pendingChunksBuffer = [[1]] ∧
    (recvRunFrom true recvInit
      [.strMeta c3Meta, .binChunk [1] false true]).outMsgs = [.pause] ∧
    (recvRunFrom true recvInit
      [.strMeta c3Meta, .binChunk [1] false true, .approval true]).chunksReceived = 1 ∧
    (recvRunFrom true recvInit
      [.strMeta c3Meta, .binChunk [1] false true, .approval true]).bytesReceived = 1 ∧
    (recvRunFrom true recvInit
      [.strMeta c3Meta, .binChunk [1] false true, .approval true]).receivedChunks = [] ∧
    (recvRunFrom true recvInit
      [.strMeta c3Meta, .binChunk [1] false true, .approval true]).outMsgs =
      [.pause, .resume] ∧
    (recvRun true [.strMeta c3Meta, .binChunk [1] false true, .approval true,
        .binChunk [2] false true]).transfer =
      some { status := .completed, progress := 100, fileBytes := some [2] } ∧
    (recvRun false [.strMeta c3Meta, .binChunk [1] false true,
        .binChunk [2] false true]).transfer =
      some { status := .completed, progress := 100, fileBytes := some [1, 2] } ∧
    (recvRun true [.strMeta c3Meta, .binChunk [1] false true, .approval true,
        .binChunk [2] false true]).transfer ≠
      (recvRun false [.strMeta c3Meta, .binChunk [1] false true,
        .binChunk [2] false true]).transfer := by
  refine ⟨by decide, by decide, by decide, by decide, by decide, by decide,
    by decide, by decide, by decide⟩

/-! ### C5 -/

lemma senderBStep_chunkSent_cap (s : SenderBState) :
    (senderBStep s .chunkSent).progress ≤ max s.progress 95 := by
  unfold senderBStep
  dsimp only
  split
  · exact le_trans (min_le_right _ _) (le_max_right _ _)
  · exact le_max_left _ _

lemma senderBRun_progress_provenance (es : List SenderBEvent) :
    ∀ s : SenderBState, 95 < (senderBRun s es).progress →
      95 < s.progress ∨ SenderBEvent.drainedComplete ∈ es ∨
        ∃ v, SenderBEvent.progressSync v ∈ es ∧ 95 < min v 100 := by
  induction es with
  | nil => intro s h; exact Or.inl h
  | cons e es ih =>
    intro s h
    have h' := ih (senderBStep s e) h
    cases e with
    | chunkSent =>
      rcases h' with hp | hmem | hex
      · left
        have hcap := senderBStep_chunkSent_cap s
        have hmax : (95 : ℚ) < max s.progress 95 := lt_of_lt_of_le hp hcap
        rcases le_or_lt s.progress 95 with hle | hlt
        · exact absurd hmax (by rw [max_eq_right hle]; exact lt_irrefl _)
        · exact hlt
      · exact Or.inr (Or.inl (List.mem_cons_of_mem _ hmem))
      · obtain ⟨v, hv, h95⟩ := hex
        exact Or.inr (Or.inr ⟨v, List.mem_cons_of_mem _ hv, h95⟩)
    | progressSync v =>
      rcases h' with hp | hmem | hex
      · exact Or.inr (Or.inr ⟨v, List.mem_cons_self _ _, by
          simpa [senderBStep] using hp⟩)
      · exact Or.inr (Or.inl (List.mem_cons_of_mem _ hmem))
      · obtain ⟨v', hv, h95⟩ := hex
        exact Or.inr (Or.inr ⟨v', List.mem_cons_of_mem _ hv, h95⟩)
    | drainedComplete => exact Or.inr (Or.inl (List.mem_cons_self _ _))
    | pauseReq =>
      rcases h' with hp | hmem | hex
      · exact Or.inl hp
      · exact Or.inr (Or.inl (List.mem_cons_of_mem _ hmem))
      · obtain ⟨v, hv, h95⟩ := hex
        exact Or.inr (Or.inr ⟨v, List.mem_cons_of_mem _ hv, h95⟩)
    | resumeReq =>
      have hpr : (senderBStep s .resumeReq).progress = s.progress := by
        by_cases hc : s.status = .pendingApproval <;> simp [senderBStep, hc]
      rcases h' with hp | hmem | hex
      · exact Or.inl (hpr ▸ hp)
      · exact Or.inr (Or.inl (List.mem_cons_of_mem _ hmem))
      · obtain ⟨v, hv, h95⟩ := hex
        exact Or.inr (Or.inr ⟨v, List.mem_cons_of_mem _ hv, h95⟩)
    | cancelReq =>
      rcases h' with hp | hmem | hex
      · exact Or.inl hp
      · exact Or.inr (Or.inl (List.mem_cons_of_mem _ hmem))
      · obtain ⟨v, hv, h95⟩ := hex
        exact Or.inr (Or.inr ⟨v, List.mem_cons_of_mem _ hv, h95⟩)

/-- C5 counterexample: in the second revision's chunk pump, a trace with no
`progress-sync` message at all still ends with the sender's progress at 100 —
the completion step after the buffer drain raises it above 95 locally,
contradicting "only a receiver-sent progress-sync message can raise the
sender's progress above 95". -/
theorem sender_completion_breaks_95_cap :
    ([SenderBEvent.chunkSent, SenderBEvent.drainedComplete].all
      (fun e => !isProgressSyncB e)) = true ∧
    (senderBRun (senderBInit 1)
      [SenderBEvent.chunkSent, SenderBEvent.drainedComplete]).progress = 100 ∧
    (senderBRun (senderBInit 1)
      [SenderBEvent.chunkSent, SenderBEvent.drainedComplete]).status = .completed ∧
    ¬ ((100 : ℚ) ≤ 95) := by
  refine ⟨by decide, by decide, by decide, by decide⟩

/-- C5 as amended: per-chunk sender-local accounting never raises progress
above 95 (it is capped by `Math.min(localProgress, 95)`), and the sender's
progress exceeds 95 only after its own completion step (all chunks sent and
the outbound buffer drained, which sets it to 100) or after adopting a
receiver `progress-sync` whose adopted value `min(v, 100)` exceeds 95. -/
theorem sender_progress_above95_provenance (total : Nat)
    (es : List SenderBEvent) :
    (∀ s : SenderBState, (senderBStep s .chunkSent).progress ≤ max s.progress 95) ∧
    (95 < (senderBRun (senderBInit total) es).progress →
      SenderBEvent.drainedComplete ∈ es ∨
        ∃ v, SenderBEvent.progressSync v ∈ es ∧ 95 < min v 100) := by
  refine ⟨senderBStep_chunkSent_cap, ?_⟩
  intro h
  rcases senderBRun_progress_provenance es (senderBInit total) h with hp | hmem | hex
  · exact absurd hp (by norm_num [senderBInit])
  · exact Or.inl hmem
  · exact Or.inr hex

/-- C5 witness: a sync reporting 100 raises the progress above 95, and the
provenance theorem attributes it to that sync. -/
theorem sender_progress_above95_provenance_witness :
    SenderBEvent.drainedComplete ∈ ([SenderBEvent.progressSync 100] : List SenderBEvent) ∨
      ∃ v, SenderBEvent.progressSync v ∈ ([SenderBEvent.progressSync 100] : List SenderBEvent) ∧
        95 < min v 100 :=
  (sender_progress_above95_provenance 1 [SenderBEvent.progressSync 100]).2 (by decide)

/-! ### C6 -/

lemma progressTraceA_head (s : SenderAState) (es : List SenderAEvent) :
    (progressTraceA s es).head? = some s.progress := by
  cases es <;> rfl

lemma progressTraceA_chain (es : List SenderAEvent) :
    ∀ s : SenderAState, SenderAEvent.pumpComplete ∉ es →
      List.Chain' (· ≤ ·) (syncValues es) →
      (∀ v ∈ syncValues es, 0 ≤ v) →
      (∀ v, (syncValues es).head? = some v → s.progress ≤ min v 100) →
      List.Chain' (· ≤ ·) (progressTraceA s es) := by
  induction es with
  | nil => intro s _ _ _ _; simp [progressTraceA]
  | cons e es ih =>
    intro s hnc hchain hpos hhead
    have hnc' : SenderAEvent.pumpComplete ∉ es := fun hmem =>
      hnc (List.mem_cons_of_mem e hmem)
    cases e with
    | progressSync v =>
      have hsv : syncValues (.progressSync v :: es) = v :: syncValues es := rfl
      rw [hsv] at hchain hpos hhead
      show List.Chain' _ (s.progress :: progressTraceA (senderAStep s (.progressSync v)) es)
      rw [List.chain'_cons']
      constructor
      · intro y hy
        rw [progressTraceA_head] at hy
        have hy' : (senderAStep s (.progressSync v)).progress = y := by
          simpa using hy
        rw [← hy']
        exact hhead v rfl
      · apply ih _ hnc'
        · exact (List.chain'_cons'.mp hchain).2
        · intro w hw; exact hpos w (List.mem_cons_of_mem v hw)
        · intro w hw
          have hvw : v ≤ w := (List.chain'_cons'.mp hchain).1 w hw
          show min v 100 ≤ min w 100
          exact min_le_min hvw le_rfl
    | pauseReq =>
      show List.Chain' _ (s.progress :: progressTraceA (senderAStep s .pauseReq) es)
      rw [List.chain'_cons']
      refine ⟨?_, ih _ hnc' hchain hpos hhead⟩
      intro y hy
      rw [progressTraceA_head] at hy
      have hy' : (senderAStep s .pauseReq).progress = y := by simpa using hy
      rw [← hy']
      exact le_of_eq rfl
    | resumeReq =>
      have hpr : (senderAStep s .resumeReq).progress = s.progress := by
        by_cases hc : s.status = .pendingApproval <;> simp [senderAStep, hc]
      show List.Chain' _ (s.progress :: progressTraceA (senderAStep s .resumeReq) es)
      rw [List.chain'_cons']
      refine ⟨?_, ih _ hnc' hchain hpos (by rw [hpr]; exact hhead)⟩
      intro y hy
      rw [progressTraceA_head] at hy
      have hy' : (senderAStep s .resumeReq).progress = y := by simpa using hy
      rw [← hy', hpr]
    | cancelReq =>
      show List.Chain' _ (s.progress :: progressTraceA (senderAStep s .cancelReq) es)
      rw [List.chain'_cons']
      refine ⟨?_, ih _ hnc' hchain hpos hhead⟩
      intro y hy
      rw [progressTraceA_head] at hy
      have hy' : (senderAStep s .cancelReq).progress = y := by simpa using hy
      rw [← hy']
      exact le_of_eq rfl
    | pumpComplete =>
      exact absurd (List.mem_cons_self _ _) hnc

/-- C6 counterexample: the sender has a second progress writer the claim
overlooks — the `startFileSending` epilogue, which sets `progress = 100` on
its own once the outbound buffer drains — and the `progress-sync` adoption
has no completed-guard. A single in-flight report of 50 (a non-decreasing,
non-negative report sequence) arriving after that write makes the observed
progress go 0, 100, 50: it decreases, refuting session-wide monotonicity. -/
theorem late_sync_after_completion_drops_progress :
    List.Chain' (· ≤ ·)
      (syncValues [SenderAEvent.pumpComplete, .progressSync 50]) ∧
    (∀ v ∈ syncValues [SenderAEvent.pumpComplete, .progressSync 50], 0 ≤ v) ∧
    progressTraceA senderAInit [SenderAEvent.pumpComplete, .progressSync 50] =
      [0, 100, 50] ∧
    ¬ List.Chain' (· ≤ ·)
      (progressTraceA senderAInit [SenderAEvent.pumpComplete, .progressSync 50]) := by
  refine ⟨?_, ?_, by decide, ?_⟩
  · show List.Chain' (· ≤ ·) [(50 : ℚ)]
    simp
  · intro v hv
    simp [syncValues] at hv
    rw [hv]
    norm_num
  · have htr : progressTraceA senderAInit
        [SenderAEvent.pumpComplete, .progressSync 50] = [0, 100, 50] := by decide
    rw [htr]
    norm_num [List.chain'_cons]

/-- C6 as amended: within one session, for any event trace that precedes the
sender's own completion write (the `startFileSending` epilogue, which forces
progress to 100) and whose receiver-reported `progress-sync` values are
non-decreasing and non-negative, the sequence of progress values observable
on the sender — starting from 0 and adopting each report as
`Math.min(report, 100)` — is monotonically non-decreasing;
pause/resume/cancel control messages in between never move it. After the
completion write, a late in-flight report is still adopted unguarded and can
lower the displayed value. -/
theorem sender_progress_monotone_before_completion (es : List SenderAEvent)
    (hnc : SenderAEvent.pumpComplete ∉ es)
    (hmono : List.Chain' (· ≤ ·) (syncValues es))
    (hpos : ∀ v ∈ syncValues es, 0 ≤ v) :
    List.Chain' (· ≤ ·) (progressTraceA senderAInit es) := by
  apply progressTraceA_chain es senderAInit hnc hmono hpos
  intro v hv
  have h0 : (0 : ℚ) ≤ v := hpos v (List.mem_of_mem_head? hv)
  show (senderAInit).progress ≤ min v 100
  have : (senderAInit).progress = 0 := rfl
  rw [this]
  exact le_min h0 (by norm_num)

/-- C6 witness: the observed progress sequence for reports 50 then 100, with
a pause in between and no completion write, is non-decreasing. -/
theorem sender_progress_monotone_before_completion_witness :
    List.Chain' (· ≤ ·) (progressTraceA senderAInit
      [.progressSync 50, .pauseReq, .progressSync 100]) :=
  sender_progress_monotone_before_completion
    [.progressSync 50, .pauseReq, .progressSync 100]
    (by decide)
    (by norm_num [syncValues, List.chain'_cons])
    (by intro v hv; simp [syncValues] at hv; rcases hv with h | h <;> rw [h] <;> norm_num)

/-! ### C7 -/

/-- C7 counterexample: the source's obfuscation rule is `/\s{3,}|\.{3,}/` —
any run of three WHITESPACE characters — so a name with three tabs gets an
`info` advisory, while the claim's rules (runs of three SPACES or dots, else
no warning) classify it as no warning. -/
theorem classifier_space_rule_counterexample :
    advisoryOf (checkFile ("a\t\t\tb")) = .info ∧
    specClassify ("a\t\t\tb") = .noWarning ∧
    advisoryOf (checkFile ("a\t\t\tb")) ≠ specClassify ("a\t\t\tb") := by
  refine ⟨by decide, by decide, by decide⟩

/-- C7 as amended: `checkFile` applies exactly the claim's priority rules to
the lower-cased name — double-extension disguise → `caution`, high-risk
extension → `info`, percent-encoding / zero-width / runs of three or more
WHITESPACE characters (JS `\s`, not only spaces) or dots → `info`, otherwise
no warning — and in particular `invoice.pdf.exe` yields caution while
`archive.zip` yields none. -/
theorem classifier_matches_amended_rules :
    (∀ name : String, advisoryOf (checkFile name) = specClassifyAmended name) ∧
    advisoryOf (checkFile ("invoice.pdf.exe")) = .caution ∧
    advisoryOf (checkFile ("archive.zip")) = .noWarning := by
  refine ⟨?_, by decide, by decide⟩
  intro name
  unfold checkFile specClassifyAmended advisoryOf hasObfuscatedName
  by_cases h1 : doubleExtensionTest (jsLower name) = true
  · simp [h1]
  · by_cases h2 : highRiskExtensionsTest (jsLower name) = true
    · simp [h1, h2]
    · by_cases h3 : (hasPercentEncoding (jsLower name) = true ∨
          hasZeroWidth (jsLower name) = true ∨
          (hasRunOf3 isJsWhitespace (jsLower name) = true ∨
            hasRunOf3 (fun c => c = '.') (jsLower name) = true))
      · simp [h1, h2, h3]
      · simp [h1, h2, h3]

/-! ### C8 -/

/-- C8: when the fetched share record carries a `pinHash`, the joining side
reaches the connect phase exactly when its locally computed hash of the
entered PIN equals the stored hash; a mismatch is blocked locally with
"Incorrect PIN" and the flow issues no network request (the request list is
empty); with the PIN set to `"4821"`, entering `"4821"` proceeds and
entering `"4820"` is blocked locally. -/
theorem pin_gate_local_verification (stored pin : String) (hpin : pin ≠ "") :
    ((proceedWithDownload (some stored) pin).1 = .connect ↔ sha256Hex pin = stored) ∧
    (sha256Hex pin ≠ stored →
      proceedWithDownload (some stored) pin = (.blocked ("Incorrect PIN"), [])) ∧
    (proceedWithDownload (some (sha256Hex ("4821"))) ("4821")).1 = .connect ∧
    proceedWithDownload (some (sha256Hex ("4821"))) ("4820") =
      (.blocked ("Incorrect PIN"), []) := by
  refine ⟨?_, ?_, by decide, by decide⟩
  · simp only [proceedWithDownload]
    rw [if_neg hpin]
    by_cases h : sha256Hex pin = stored
    · rw [if_pos h]; simp [h]
    · rw [if_neg h]; simp [h]
  · intro h
    simp only [proceedWithDownload]
    rw [if_neg hpin, if_neg h]

/-- C8 witness: the correct PIN proceeds. -/
theorem pin_gate_local_verification_witness :
    (proceedWithDownload (some (sha256Hex ("4821"))) ("4821")).1 = .connect :=
  (pin_gate_local_verification (sha256Hex ("4821")) ("4821") (by decide)).2.2.1

/-! ### C9 -/

/-- Test for the connection-restart action (applying a configuration to a
connection), which the failure handler never performs. -/
def isConnectionRestart : IceAction → Bool
  | .connectionRestart _ => true
  | .buildConfig _ => false

lemma iceRun_terminal (es : List IceEvent) :
    ∀ s : IceRetryState, (∀ e ∈ es, e = .failed) → 2 ≤ s.iceFailureCount →
      s.tStatus = .failed → s.cStatus = .failed →
      (iceRun s es).tStatus = .failed ∧ (iceRun s es).cStatus = .failed ∧
      (iceRun s es).actions = s.actions := by
  induction es with
  | nil => intro s _ _ ht hc; exact ⟨ht, hc, rfl⟩
  | cons e es ih =>
    intro s hall h2 ht hc
    have he : e = .failed := hall e (List.mem_cons_self _ _)
    subst he
    have h1 : ¬ s.tStatus = TransferStatus.completed := by simp [ht]
    have h3 : ¬ (s.iceFailureCount + 1 ≤ 1) := by omega
    have hstep : iceStep s .failed =
        { s with iceFailureCount := s.iceFailureCount + 1,
                 tStatus := .failed, cStatus := .failed } := by
      simp [iceStep, h1, h3]
    obtain ⟨a, b, c⟩ := ih { s with iceFailureCount := s.iceFailureCount + 1,
                                    tStatus := .failed, cStatus := .failed }
      (fun e he => hall e (List.mem_cons_of_mem _ he))
      (by show 2 ≤ s.iceFailureCount + 1; omega) rfl rfl
    refine ⟨?_, ?_, ?_⟩
    · show (iceRun (iceStep s .failed) es).tStatus = _
      rw [hstep]; exact a
    · show (iceRun (iceStep s .failed) es).cStatus = _
      rw [hstep]; exact b
    · show (iceRun (iceStep s .failed) es).actions = _
      rw [hstep]; exact c

/-- C9: evaluation of the code at the claim's failing input. On the first
ICE `failed` event before completion the handler enters "retry mode": it
constructs the TURN-only fallback configuration (`iceTransportPolicy:
'relay'`) and puts both statuses back to `'connecting'` — but it never
applies that configuration to anything: no connection-restart action is ever
performed (the source has no `restartIce`, `setConfiguration` or new
`RTCPeerConnection` reachable from the handler, despite its own "Creating
TURN-only fallback connection" log). A second failure, and any number of
further failures, make both statuses terminally `failed`, with the
relay-only configuration built exactly once and still never applied; a
failure arriving after completion only bumps the counter (which the source
increments before its completed-check) and changes nothing else. -/
theorem relay_retry_never_applied :
    ((iceRun iceInit [.failed]).tStatus = .connecting ∧
     (iceRun iceInit [.failed]).cStatus = .connecting ∧
     (iceRun iceInit [.failed]).actions = [.buildConfig .relay] ∧
     ((iceRun iceInit [.failed]).actions.all
       (fun a => !isConnectionRestart a)) = true) ∧
    ((iceRun iceInit [.failed, .failed]).tStatus = .failed ∧
     (iceRun iceInit [.failed, .failed]).cStatus = .failed ∧
     (iceRun iceInit [.failed, .failed]).actions = [.buildConfig .relay]) ∧
    (∀ n, 2 ≤ n →
      (iceRun iceInit (List.replicate n .failed)).tStatus = .failed ∧
      (iceRun iceInit (List.replicate n .failed)).cStatus = .failed ∧
      (iceRun iceInit (List.replicate n .failed)).actions = [.buildConfig .relay]) ∧
    (∀ s : IceRetryState, s.tStatus = .completed →
      iceStep s .failed = { s with iceFailureCount := s.iceFailureCount + 1 }) := by
  refine ⟨by decide, by decide, ?_, ?_⟩
  · intro n hn
    obtain ⟨k, rfl⟩ : ∃ k, n = k + 2 := ⟨n - 2, by omega⟩
    have hrep : List.replicate (k + 2) IceEvent.failed =
        .failed :: .failed :: List.replicate k .failed := rfl
    rw [hrep]
    have hstate : iceStep (iceStep iceInit .failed) .failed =
        { iceFailureCount := 2, tStatus := .failed, cStatus := .failed,
          actions := [.buildConfig .relay] } := by decide
    have hrw : iceRun iceInit
        (.failed :: .failed :: List.replicate k .failed) =
        iceRun { iceFailureCount := 2, tStatus := .failed, cStatus := .failed,
                 actions := [.buildConfig .relay] }
          (List.replicate k .failed) := by
      show iceRun (iceStep (iceStep iceInit .failed) .failed) _ = _
      rw [hstate]
    rw [hrw]
    obtain ⟨a, b, c⟩ := iceRun_terminal (List.replicate k .failed)
      { iceFailureCount := 2, tStatus := .failed, cStatus := .failed,
        actions := [.buildConfig .relay] }
      (fun e he => List.eq_of_mem_replicate he) (by simp) rfl rfl
    exact ⟨a, b, by rw [c]⟩
  · intro s h
    simp [iceStep, h]

/-- C9 witness: at exactly three failures the statuses are terminally
failed and the relay-only configuration was built once, never applied. -/
theorem relay_retry_never_applied_witness :
    (iceRun iceInit (List.replicate 3 IceEvent.failed)).tStatus = .failed ∧
    (iceRun iceInit (List.replicate 3 IceEvent.failed)).cStatus = .failed ∧
    (iceRun iceInit (List.replicate 3 IceEvent.failed)).actions =
      [.buildConfig .relay] :=
  relay_retry_never_applied.2.2.1 3 (by decide)

end Wizzit
